import Mathlib

/-!
Verification of the compiler-cli `NgHost` module
(`src/modules/@angular/compiler-cli/src/ng_host.ts`).

The TypeScript source is shallowly embedded below.  Strings are Lean
`String`s (lists of characters); the Node `path` module's POSIX behaviour
(`normalize`, `join`, `relative`, `dirname`) is implemented from Node's
documented algorithms; JavaScript string methods (`indexOf`, `substring`,
first-occurrence `replace`, `startsWith`, regex-suffix tests) are
implemented with the same semantics on character lists.  The external
collaborators (the TypeScript compiler host, `ts.Program`,
`MetadataCollector`, `ts.resolveModuleName`, `JSON.parse`, the real file
system) are injected as an `Env` of pure functions, exactly as they are
injected capabilities in the source.  The two pieces of mutable instance
state (the `assumedExists` map of `NodeNgHostContext` and the
`resolverCache` map of `NgHost`) are threaded explicitly as a `HostState`.
-/

namespace NgHost

/-! ## JavaScript string primitives -/

/-- JS `String.prototype.startsWith` (also used for `indexOf(c) === 0`). -/
def startsWithL (s pat : String) : Bool :=
  List.isPrefixOf pat.data s.data

/-- JS `String.prototype.endsWith`; the anchored-suffix regex tests
(`EXT`, `DTS`, `IS_GENERATED`) reduce to it. -/
def endsWithL (s pat : String) : Bool :=
  List.isSuffixOf pat.data s.data

/-- Index of the first occurrence of `pat` in a character list
(JS `indexOf` semantics; an empty pattern is found at index 0). -/
def firstIdx (pat : List Char) : List Char → Option Nat
  | [] => if pat.isEmpty then some 0 else none
  | c :: rest =>
    if List.isPrefixOf pat (c :: rest) then some 0
    else (firstIdx pat rest).map (· + 1)

/-- JS `String.prototype.indexOf`: `some i` for the first occurrence,
`none` where JS returns `-1`. -/
def jsIndexOf (s pat : String) : Option Nat :=
  firstIdx pat.data s.data

/-- JS `String.prototype.substring(i)` (suffix from character index `i`). -/
def jsSubstringFrom (s : String) (i : Nat) : String :=
  ⟨s.data.drop i⟩

/-- Drop the last `n` characters (used for anchored regex-suffix rewrites). -/
def dropRightL (s : String) (n : Nat) : String :=
  ⟨s.data.take (s.data.length - n)⟩

/-- JS `String.prototype.replace(pat, rep)` with a *string* pattern:
only the first occurrence is replaced; no occurrence leaves `s` unchanged.
(`$`-substitution patterns in `rep` are not modelled; no call site of the
source uses them.) -/
def replaceFirst (s pat rep : String) : String :=
  match jsIndexOf s pat with
  | none => s
  | some i => ⟨s.data.take i ++ rep.data ++ s.data.drop (i + pat.length)⟩

/-- Model of `.replace(/\\/g, '/')`: every backslash becomes a forward slash. -/
def slashify (s : String) : String :=
  ⟨s.data.map fun c => if c = '\\' then '/' else c⟩

/-! ## Node `path` (POSIX) -/

/-- Split a character list on `/` (keeping empty segments, as a raw split). -/
def splitSlashAux : List Char → List Char → List String
  | [], acc => [⟨acc.reverse⟩]
  | c :: rest, acc =>
    if c = '/' then ⟨acc.reverse⟩ :: splitSlashAux rest []
    else splitSlashAux rest (c :: acc)

def splitSlash (s : String) : List String :=
  splitSlashAux s.data []

/-- Node's `normalizeString`: resolve `.` and `..` segments against a stack;
`..` above the root is dropped for absolute paths and kept for relative
ones (Node's `allowAboveRoot = !isAbsolute`). -/
def normSegsAux (isAbs : Bool) : List String → List String → List String
  | [], stack => stack.reverse
  | seg :: rest, stack =>
    if seg = "" ∨ seg = "." then normSegsAux isAbs rest stack
    else if seg = ".." then
      match stack with
      | top :: stack' =>
        if top = ".." then normSegsAux isAbs rest (seg :: top :: stack')
        else normSegsAux isAbs rest stack'
      | [] => if isAbs then normSegsAux isAbs rest [] else normSegsAux isAbs rest [seg]
    else normSegsAux isAbs rest (seg :: stack)

/-- Node `path.posix.normalize`. -/
def pathNormalize (p : String) : String :=
  if p.isEmpty then "."
  else
    let isAbs := startsWithL p "/"
    let trailing := endsWithL p "/"
    let body := String.intercalate "/" (normSegsAux isAbs (splitSlash p) [])
    if body.isEmpty then
      if isAbs then "/" else if trailing then "./" else "."
    else
      (if isAbs then "/" else "") ++ body ++ (if trailing then "/" else "")

/-- Node `path.posix.join` for the two-argument calls of the source: skip
zero-length parts, concatenate with `/`, normalize; `"."` when all empty. -/
def pathJoin (a b : String) : String :=
  if a.isEmpty ∧ b.isEmpty then "."
  else if a.isEmpty then pathNormalize b
  else if b.isEmpty then pathNormalize a
  else pathNormalize (a ++ "/" ++ b)

/-- Drop the common leading segments of two segment lists. -/
def dropCommon : List String → List String → List String × List String
  | a :: as, b :: bs => if a = b then dropCommon as bs else (a :: as, b :: bs)
  | as, bs => (as, bs)

/-- Node `path.posix.relative` for absolute arguments (every call site of the
source passes absolute paths): resolve both, drop the common prefix, ascend
with `..` for each remaining `from` segment, then descend into `to`. -/
def pathRelative (p q : String) : String :=
  let pcs := normSegsAux true (splitSlash p) []
  let qcs := normSegsAux true (splitSlash q) []
  let (pr, qr) := dropCommon pcs qcs
  String.intercalate "/" (List.replicate pr.length ".." ++ qr)

/-- Node `path.posix.dirname` (purely textual, no normalization): skip trailing
slashes, cut at the previous slash; Node's loop never selects the slash at
index 0, and `//x` keeps its double root. -/
def pathDirname (p : String) : String :=
  if p.isEmpty then "."
  else
    let hasRoot := startsWithL p "/"
    let r1 := p.data.reverse.dropWhile fun c => c = '/'
    let r2 := r1.dropWhile fun c => c ≠ '/'
    match r2 with
    | [] => if hasRoot then "/" else "."
    | _ :: rest =>
      if rest.isEmpty then (if hasRoot then "/" else ".")
      else if hasRoot ∧ rest.length = 1 then "//"
      else ⟨rest.reverse⟩

/-! ## Data model -/

/-- A JSON value, as produced by `JSON.parse` on a sidecar metadata file and
as returned by the external `MetadataCollector` (the `ModuleMetadata` objects
are opaque to this layer beyond JS truthiness and the empty-array test). -/
inductive Json where
  | null : Json
  | bool : Bool → Json
  | num : Int → Json
  | str : String → Json
  | arr : List Json → Json
  | obj : List (String × Json) → Json

/-- JS truthiness of a `ModuleMetadata | undefined` value (`none` is
`undefined`): drives `if (!metadata)` and `cached || parsed`. -/
def jsTruthy : Option Json → Bool
  | none => false
  | some Json.null => false
  | some (Json.bool b) => b
  | some (Json.num n) => n != 0
  | some (Json.str s) => !s.isEmpty
  | some (Json.arr _) => true
  | some (Json.obj _) => true

/-- JS truthiness of a `string | null` (`importModule`): `null` and the
empty string are falsy. -/
def jsStrTruthy : Option String → Bool
  | none => false
  | some s => !s.isEmpty

/-- Test `Array.isArray(metadata) && metadata.length == 0`. -/
def isEmptyArr : Json → Bool
  | Json.arr l => l.isEmpty
  | _ => false

/-- The external collaborators, injected capabilities of the source:
`compilerHost.fileExists` / `readFile` (also backing `NodeNgHostContext`,
whose `readFile` is a plain disk read of the same file system),
`program.getSourceFile`, `MetadataCollector.getMetadata` (on an opaque
source file, here its name paired with its text), `JSON.parse` (`none`
models a parse exception) and `ts.resolveModuleName` (specifier and
containing file to resolved file name or `null`). -/
structure Env where
  hostFileExists : String → Bool
  hostReadFile : String → String
  programSource : String → Option (String × String)
  collect : String × String → Option Json
  parseJson : String → Option Json
  tsResolve : String → String → Option String

/-- The mutable per-run state: `NodeNgHostContext.assumedExists` (a
string-keyed boolean map, absent keys read as `false`), the
`NgHost.resolverCache` map (`Map.get` cannot distinguish an absent key from
a stored `undefined`, and only `get`/`set` are used, so the cache is a
function to `Option Json`), and `work`, an instrumentation counter of how
many context reads (`context.readFile`) and collector invocations
(`metadataCollector.getMetadata`) have happened — it influences no
returned value. -/
structure HostState where
  assumed : String → Bool
  cache : String → Option Json
  work : Nat

/-- The pristine state of a freshly constructed host. -/
def st0 : HostState := ⟨fun _ => false, fun _ => none, 0⟩

/-- One unit of observable work (a read or a collector call). -/
def bump (st : HostState) : HostState :=
  { st with work := st.work + 1 }

/-! ## `NodeNgHostContext` -/

/-- Context `assumeFileExists(fileName)`: `this.assumedExists[fileName] = true`. -/
def ctxAssume (st : HostState) (p : String) : HostState :=
  { st with assumed := fun q => if q = p then true else st.assumed q }

/-- Context `NodeNgHostContext.fileExists`:
`this.assumedExists[fileName] || this.host.fileExists(fileName)`. -/
def ctxFileExists (env : Env) (st : HostState) (p : String) : Bool :=
  st.assumed p || env.hostFileExists p

inductive ResourceError where
  | notFound : String → ResourceError
deriving DecidableEq

/-- Context `NodeNgHostContext.readResource`: an eager existence check against the
*underlying* compiler host (`this.host.fileExists`, not the assumed-set
aware `fileExists`), then `this.host.readFile`.  The promise is modelled by
its settled value. -/
def readResource (env : Env) (p : String) : Except ResourceError String :=
  if !env.hostFileExists p then Except.error (ResourceError.notFound p)
  else Except.ok (env.hostReadFile p)

/-! ## `NgHost` construction -/

/-- The construction-time configuration of an `NgHost`: the normalized
roots and the derived `isGenDirChildOfRootDir` flag. -/
structure Config where
  basePath : String
  genDir : String
  isGenDirChildOfRootDir : Bool

/-- The `NgHost` constructor (lines 34–44): normalize both roots so they
never end in `/`, canonicalize separators, and derive the child flag from
the relative path between them. -/
def mkConfig (optBasePath optGenDir : String) : Config :=
  let basePath := slashify (pathNormalize (pathJoin optBasePath "."))
  let genDir := slashify (pathNormalize (pathJoin optGenDir "."))
  let genPath := pathRelative basePath genDir
  { basePath := basePath, genDir := genDir,
    isGenDirChildOfRootDir := genPath == "" || !startsWithL genPath ".." }

/-! ## Path classification constants (lines 15–18) -/

def NODE_MODULES : String := "/node_modules/"

/-- Extension stripping `m.replace(EXT, '')` with `EXT = /(\.ts|\.d\.ts|\.js|\.jsx|\.tsx)$/`:
the regex is anchored, so the leftmost match is the longest matching
suffix; `.d.ts` starts two characters before the `.ts` it contains. -/
def stripExt (s : String) : String :=
  if endsWithL s ".d.ts" then dropRightL s 5
  else if endsWithL s ".ts" then dropRightL s 3
  else if endsWithL s ".js" then dropRightL s 3
  else if endsWithL s ".jsx" then dropRightL s 4
  else if endsWithL s ".tsx" then dropRightL s 4
  else s

/-- Test `IS_GENERATED.test` with `IS_GENERATED = /\.(ngfactory|css(\.shim)?)$/`. -/
def isGenerated (s : String) : Bool :=
  endsWithL s ".ngfactory" || endsWithL s ".css" || endsWithL s ".css.shim"

/-- Test `DTS.test` with `DTS = /\.d\.ts$/`. -/
def dtsTest (s : String) : Bool :=
  endsWithL s ".d.ts"

/-- Rewrite `filePath.replace(DTS, '.metadata.json')` for a path passing `dtsTest`:
the anchored match is the final `.d.ts`. -/
def metadataJsonPath (p : String) : String :=
  dropRightL p 5 ++ ".metadata.json"

/-! ## `NgHost` operations -/

inductive ResolveError where
  | relativeNeedsContainingFile : ResolveError
deriving DecidableEq

/-- Method `resolveImportToFile` (lines 49–62): an empty containing file is
rejected for specifiers starting with `.` (`m.indexOf('.') === 0`) and
otherwise replaced by `basePath/index.ts`; the specifier is
extension-stripped and handed to `ts.resolveModuleName`, whose
`resolvedFileName` (or `null`) is returned. -/
def resolveImportToFile (cfg : Config) (env : Env) (m containingFile : String) :
    Except ResolveError (Option String) :=
  if containingFile.isEmpty then
    if startsWithL m "." then Except.error ResolveError.relativeNeedsContainingFile
    else
      Except.ok (env.tsResolve (stripExt m) (slashify (pathJoin cfg.basePath "index.ts")))
  else
    Except.ok (env.tsResolve (stripExt m) (slashify containingFile))

/-- Method `rewriteGenDirPath` (lines 129–139): a path containing
`/node_modules/` has its suffix from the first marker transplanted under
`genDir`; otherwise the first occurrence of `basePath` in the path is
replaced by `genDir`. -/
def rewriteGenDirPath (cfg : Config) (filepath : String) : String :=
  match jsIndexOf filepath NODE_MODULES with
  | some i => pathJoin cfg.genDir (jsSubstringFrom filepath i)
  | none => replaceFirst filepath cfg.basePath cfg.genDir

/-- Method `dotRelative` (lines 121–124): the slash-canonicalized relative
path, prefixed with `./` when it does not already start with `.`. -/
def dotRelative (p q : String) : String :=
  let rPath := slashify (pathRelative p q)
  if startsWithL rPath "." then rPath else "./" ++ rPath

/-- Method `resolveFileToImport` (lines 79–119).  Returns the specifier and
the state after the `assumeFileExists` hint (the hint fires when the raw
`compilerHost.fileExists` is false).  The four-way branch follows the
source: generated dependency, generated local, ordinary dependency (bare
module id), ordinary local (with the mirrored-roots remap when `genDir` is
not a child of `basePath`). -/
def resolveFileToImport (cfg : Config) (env : Env) (st : HostState)
    (importedFile containingFile : String) : String × HostState :=
  let st1 := if !env.hostFileExists importedFile then ctxAssume st importedFile else st
  let containing := rewriteGenDirPath cfg containingFile
  let containingDir := pathDirname containing
  let imported := stripExt importedFile
  let importModule : Option String :=
    (jsIndexOf imported NODE_MODULES).map
      fun i => jsSubstringFrom imported (i + NODE_MODULES.length)
  let result :=
    if isGenerated imported then
      if jsStrTruthy importModule then
        dotRelative containingDir (cfg.genDir ++ NODE_MODULES ++ importModule.getD "")
      else
        dotRelative containingDir (rewriteGenDirPath cfg imported)
    else
      if jsStrTruthy importModule then importModule.getD ""
      else
        let imported2 :=
          if !cfg.isGenDirChildOfRootDir then replaceFirst imported cfg.basePath cfg.genDir
          else imported
        dotRelative containingDir imported2
  (result, st1)

inductive MetaError where
  | notInProgram : String → MetaError
  | jsonFailed : String → MetaError
deriving DecidableEq

/-- Method `readMetadata` (lines 171–178):
`this.resolverCache.get(filePath) || JSON.parse(this.context.readFile(filePath))`,
with a parse exception logged and re-raised.  The read of the context is a
unit of `work`. -/
def readMetadata (env : Env) (st : HostState) (p : String) :
    Except MetaError Json × HostState :=
  match st.cache p with
  | some m =>
    if jsTruthy (some m) then (Except.ok m, st)
    else
      match env.parseJson (env.hostReadFile p) with
      | some j => (Except.ok j, bump st)
      | none => (Except.error (MetaError.jsonFailed p), bump st)
  | none =>
    match env.parseJson (env.hostReadFile p) with
    | some j => (Except.ok j, bump st)
    | none => (Except.error (MetaError.jsonFailed p), bump st)

/-- Method `getMetadataFor` (lines 143–169).  `Except.ok none` is the
implicit/explicit `undefined` return; the collector call and the ad-hoc
read both count as `work`. -/
def getMetadataFor (env : Env) (st : HostState) (p : String) :
    Except MetaError (Option Json) × HostState :=
  if !ctxFileExists env st p then (Except.ok none, st)
  else if dtsTest p then
    let mp := metadataJsonPath p
    if ctxFileExists env st mp then
      match readMetadata env st mp with
      | (Except.error e, st') => (Except.error e, st')
      | (Except.ok m, st') => (Except.ok (if isEmptyArr m then none else some m), st')
    else (Except.ok none, st)
  else
    match env.programSource p with
    | some sf => (Except.ok (env.collect sf), bump st)
    | none =>
      if ctxFileExists env st p then
        (Except.ok (env.collect (p, env.hostReadFile p)), bump (bump st))
      else (Except.error (MetaError.notInProgram p), st)

/-- Method `getResolverMetadata` (lines 182–189): the path-keyed memo —
a falsy cached value (absent key or stored `undefined`) triggers a
recomputation whose result is stored. -/
def getResolverMetadata (env : Env) (st : HostState) (p : String) :
    Except MetaError (Option Json) × HostState :=
  if jsTruthy (st.cache p) then (Except.ok (st.cache p), st)
  else
    match getMetadataFor env st p with
    | (Except.error e, st') => (Except.error e, st')
    | (Except.ok v, st') =>
      (Except.ok v, { st' with cache := fun q => if q = p then v else st'.cache q })

/-- Method `loadResource` (line 180): delegates to the context's
`readResource`. -/
def loadResource (env : Env) (p : String) : Except ResourceError String :=
  readResource env p

/-! ## Runs

A run of the host is a sequence of calls to its public surface and to the
context.  Only `resolveFileToImport` and `assumeFileExists` touch the
assumed-existing map, and only `getResolverMetadata` touches the resolver
cache; everything else leaves the state unchanged (reads count as work). -/

inductive HostOp where
  | opResolveFileToImport (imported containing : String) : HostOp
  | opResolveImportToFile (m containing : String) : HostOp
  | opGetMetadataFor (p : String) : HostOp
  | opGetResolverMetadata (p : String) : HostOp
  | opReadMetadata (p : String) : HostOp
  | opLoadResource (p : String) : HostOp
  | opFileExists (p : String) : HostOp
  | opAssumeFileExists (p : String) : HostOp
  | opReadFile (p : String) : HostOp

/-- The state after one call. -/
def stepState (cfg : Config) (env : Env) (st : HostState) : HostOp → HostState
  | HostOp.opResolveFileToImport i c => (resolveFileToImport cfg env st i c).2
  | HostOp.opResolveImportToFile _ _ => st
  | HostOp.opGetMetadataFor p => (getMetadataFor env st p).2
  | HostOp.opGetResolverMetadata p => (getResolverMetadata env st p).2
  | HostOp.opReadMetadata p => (readMetadata env st p).2
  | HostOp.opLoadResource _ => st
  | HostOp.opFileExists _ => st
  | HostOp.opAssumeFileExists p => ctxAssume st p
  | HostOp.opReadFile _ => bump st

/-- The state after a sequence of calls. -/
def runOps (cfg : Config) (env : Env) (st : HostState) : List HostOp → HostState
  | [] => st
  | op :: ops => runOps cfg env (stepState cfg env st op) ops

/-! ## Concrete environments and states used by the concrete scenarios -/

/-- The configuration of the spec's concrete scenario: `basePath=/proj/src`,
`genDir=/proj/src/gen` (the child case). -/
def cfg1 : Config := mkConfig "/proj/src" "/proj/src/gen"

/-- A configuration whose `genDir` is *not* a child of `basePath`. -/
def cfg2 : Config := mkConfig "/proj/src" "/proj/gen"

/-- An environment on which every path exists and every collaborator is
trivial. -/
def envAllExist : Env :=
  ⟨fun _ => true, fun _ => "", fun _ => none, fun _ => none, fun _ => none, fun _ _ => none⟩

/-- An environment on which no path exists. -/
def envNoFiles : Env :=
  ⟨fun _ => false, fun _ => "", fun _ => none, fun _ => none, fun _ => none, fun _ _ => none⟩

/-- An environment for the memoization scenario: nothing exists on disk
and nothing is in the program, but reading any file and collecting
metadata from it yields a (truthy) object. -/
def envWidget : Env :=
  ⟨fun _ => false, fun _ => "export default 1", fun _ => none,
    fun _ => some (Json.obj []), fun _ => none, fun _ _ => none⟩

/-- An environment whose program contains `/app/mod.ts` with truthy
collected metadata. -/
def envTruthyMeta : Env :=
  ⟨fun _ => true, fun _ => "",
    fun q => if q = "/app/mod.ts" then some (q, "export class A {}") else none,
    fun _ => some (Json.obj []), fun _ => none, fun _ _ => none⟩

/-- An environment holding a declaration file `/lib/foo.d.ts` whose sidecar
`/lib/foo.metadata.json` reads as the literal empty JSON array. -/
def envEmptySidecar : Env :=
  ⟨fun q => q == "/lib/foo.d.ts" || q == "/lib/foo.metadata.json",
    fun _ => "[]", fun _ => none, fun _ => none,
    fun s => if s == "[]" then some (Json.arr []) else none, fun _ _ => none⟩

/-- An environment holding the declaration file but no sidecar. -/
def envNoSidecar : Env :=
  ⟨fun q => q == "/lib/foo.d.ts", fun _ => "[]", fun _ => none, fun _ => none,
    fun s => if s == "[]" then some (Json.arr []) else none, fun _ _ => none⟩

/-- A state in which `/app/tpl.html` has been assumed to exist. -/
def stTpl : HostState := ⟨fun q => q == "/app/tpl.html", fun _ => none, 0⟩

/-! ## Helper lemmas on the string primitives -/

theorem firstIdx_isPrefix (pat : List Char) :
    ∀ (l : List Char) (i : Nat), firstIdx pat l = some i →
      List.isPrefixOf pat (List.drop i l) = true := by
  intro l
  induction l with
  | nil =>
    intro i h
    unfold firstIdx at h
    split at h
    · cases h
      simpa [List.isPrefixOf_iff_prefix, List.prefix_nil] using
        List.isEmpty_iff.mp (by assumption)
    · cases h
  | cons c cs ih =>
    intro i h
    unfold firstIdx at h
    split at h
    · cases h
      simpa using (by assumption : List.isPrefixOf pat (c :: cs) = true)
    · rcases Option.map_eq_some'.mp h with ⟨j, hj, rfl⟩
      simpa using ih j hj

theorem isPrefix_firstIdx_zero (pat l : List Char)
    (h : List.isPrefixOf pat l = true) : firstIdx pat l = some 0 := by
  cases l with
  | nil =>
    have : pat = [] := List.prefix_nil.mp (List.isPrefixOf_iff_prefix.mp h)
    simp [firstIdx, this]
  | cons c cs => simp [firstIdx, h]

theorem startsWithL_trans (s pre sub : String) (h1 : startsWithL s pre = true)
    (h2 : startsWithL pre sub = true) : startsWithL s sub = true := by
  unfold startsWithL at h1 h2 ⊢
  rw [List.isPrefixOf_iff_prefix] at h1 h2 ⊢
  exact h2.trans h1

theorem replaceFirst_not_found (s pat rep : String)
    (h : jsIndexOf s pat = none) : replaceFirst s pat rep = s := by
  unfold replaceFirst
  rw [h]

theorem replaceFirst_of_startsWith (s pat rep : String)
    (h : startsWithL s pat = true) :
    replaceFirst s pat rep = rep ++ jsSubstringFrom s pat.length := by
  unfold replaceFirst jsIndexOf
  rw [isPrefix_firstIdx_zero pat.data s.data h]
  show (⟨s.data.take 0 ++ rep.data ++ s.data.drop (0 + pat.length)⟩ : String) = _
  cases rep with
  | mk rl =>
    show (⟨s.data.take 0 ++ rl ++ s.data.drop (0 + pat.length)⟩ : String) = _
    simp [jsSubstringFrom]
    rfl

/-! ## Helper lemmas on state preservation -/

theorem bump_assumed (st : HostState) : (bump st).assumed = st.assumed := rfl

theorem bump_cache (st : HostState) : (bump st).cache = st.cache := rfl

theorem ctxAssume_cache (st : HostState) (p : String) :
    (ctxAssume st p).cache = st.cache := rfl

theorem ctxAssume_assumed_self (st : HostState) (p : String) :
    (ctxAssume st p).assumed p = true := by
  simp [ctxAssume]

theorem ctxAssume_assumed_mono (st : HostState) (p x : String)
    (h : st.assumed x = true) : (ctxAssume st p).assumed x = true := by
  unfold ctxAssume
  by_cases hx : x = p <;> simp [hx, h]

theorem resolveFileToImport_state (cfg : Config) (env : Env) (st : HostState)
    (imp cont : String) :
    (resolveFileToImport cfg env st imp cont).2
      = if env.hostFileExists imp then st else ctxAssume st imp := by
  unfold resolveFileToImport
  by_cases h : env.hostFileExists imp <;> simp [h]

theorem readMetadata_state (env : Env) (st : HostState) (p : String) :
    (readMetadata env st p).2 = st ∨ (readMetadata env st p).2 = bump st := by
  unfold readMetadata
  split
  · split
    · exact Or.inl rfl
    · split <;> exact Or.inr rfl
  · split <;> exact Or.inr rfl

theorem readMetadata_assumed (env : Env) (st : HostState) (p : String) :
    ((readMetadata env st p).2).assumed = st.assumed := by
  rcases readMetadata_state env st p with h | h <;> simp [h, bump]

theorem readMetadata_cache (env : Env) (st : HostState) (p : String) :
    ((readMetadata env st p).2).cache = st.cache := by
  rcases readMetadata_state env st p with h | h <;> simp [h, bump]

theorem getMetadataFor_assumed (env : Env) (st : HostState) (p : String) :
    ((getMetadataFor env st p).2).assumed = st.assumed := by
  unfold getMetadataFor
  split
  · rfl
  · split
    · dsimp only
      split
      · split
        · rename_i heq
          have := readMetadata_assumed env st (metadataJsonPath p)
          rw [heq] at this
          exact this
        · rename_i heq
          have := readMetadata_assumed env st (metadataJsonPath p)
          rw [heq] at this
          exact this
      · rfl
    · split
      · rfl
      · split <;> rfl

theorem getMetadataFor_cache (env : Env) (st : HostState) (p : String) :
    ((getMetadataFor env st p).2).cache = st.cache := by
  unfold getMetadataFor
  split
  · rfl
  · split
    · dsimp only
      split
      · split
        · rename_i heq
          have := readMetadata_cache env st (metadataJsonPath p)
          rw [heq] at this
          exact this
        · rename_i heq
          have := readMetadata_cache env st (metadataJsonPath p)
          rw [heq] at this
          exact this
      · rfl
    · split
      · rfl
      · split <;> rfl

theorem getResolverMetadata_assumed (env : Env) (st : HostState) (p : String) :
    ((getResolverMetadata env st p).2).assumed = st.assumed := by
  unfold getResolverMetadata
  split
  · rfl
  · split
    · rename_i heq
      have := getMetadataFor_assumed env st p
      rw [heq] at this
      exact this
    · rename_i heq
      have := getMetadataFor_assumed env st p
      rw [heq] at this
      exact this

theorem getResolverMetadata_cache_of_ne (env : Env) (st : HostState) (p x : String)
    (hx : x ≠ p) :
    ((getResolverMetadata env st p).2).cache x = st.cache x := by
  unfold getResolverMetadata
  split
  · rfl
  · split
    · rename_i heq
      have := getMetadataFor_cache env st p
      rw [heq] at this
      rw [this]
    · rename_i heq
      have := getMetadataFor_cache env st p
      rw [heq] at this
      dsimp only
      rw [if_neg hx, this]

theorem getResolverMetadata_cache_truthy (env : Env) (st : HostState) (p x : String)
    (h : jsTruthy (st.cache x) = true) :
    ((getResolverMetadata env st p).2).cache x = st.cache x := by
  by_cases hx : x = p
  · subst hx
    unfold getResolverMetadata
    rw [if_pos h]
  · exact getResolverMetadata_cache_of_ne env st p x hx

theorem stepState_assumed_mono (cfg : Config) (env : Env) (st : HostState)
    (op : HostOp) (x : String) (h : st.assumed x = true) :
    (stepState cfg env st op).assumed x = true := by
  cases op with
  | opResolveFileToImport i c =>
    show ((resolveFileToImport cfg env st i c).2).assumed x = true
    rw [resolveFileToImport_state]
    split
    · exact h
    · exact ctxAssume_assumed_mono st i x h
  | opResolveImportToFile m c => exact h
  | opGetMetadataFor p =>
    show ((getMetadataFor env st p).2).assumed x = true
    rw [getMetadataFor_assumed]
    exact h
  | opGetResolverMetadata p =>
    show ((getResolverMetadata env st p).2).assumed x = true
    rw [getResolverMetadata_assumed]
    exact h
  | opReadMetadata p =>
    show ((readMetadata env st p).2).assumed x = true
    rw [readMetadata_assumed]
    exact h
  | opLoadResource p => exact h
  | opFileExists p => exact h
  | opAssumeFileExists p => exact ctxAssume_assumed_mono st p x h
  | opReadFile p => exact h

theorem runOps_assumed_mono (cfg : Config) (env : Env) (x : String) :
    ∀ (ops : List HostOp) (st : HostState), st.assumed x = true →
      (runOps cfg env st ops).assumed x = true := by
  intro ops
  induction ops with
  | nil => intro st h; exact h
  | cons op ops ih =>
    intro st h
    exact ih (stepState cfg env st op) (stepState_assumed_mono cfg env st op x h)

theorem stepState_cache_truthy (cfg : Config) (env : Env) (st : HostState)
    (op : HostOp) (x : String) (h : jsTruthy (st.cache x) = true) :
    (stepState cfg env st op).cache x = st.cache x := by
  cases op with
  | opResolveFileToImport i c =>
    show ((resolveFileToImport cfg env st i c).2).cache x = st.cache x
    rw [resolveFileToImport_state]
    split
    · rfl
    · rfl
  | opResolveImportToFile m c => rfl
  | opGetMetadataFor p =>
    show ((getMetadataFor env st p).2).cache x = st.cache x
    rw [getMetadataFor_cache]
  | opGetResolverMetadata p =>
    exact getResolverMetadata_cache_truthy env st p x h
  | opReadMetadata p =>
    show ((readMetadata env st p).2).cache x = st.cache x
    rw [readMetadata_cache]
  | opLoadResource p => rfl
  | opFileExists p => rfl
  | opAssumeFileExists p => rfl
  | opReadFile p => rfl

theorem runOps_cache_truthy (cfg : Config) (env : Env) (x : String) :
    ∀ (ops : List HostOp) (st : HostState), jsTruthy (st.cache x) = true →
      (runOps cfg env st ops).cache x = st.cache x := by
  intro ops
  induction ops with
  | nil => intro st _; rfl
  | cons op ops ih =>
    intro st h
    have hstep := stepState_cache_truthy cfg env st op x h
    have htr : jsTruthy ((stepState cfg env st op).cache x) = true := by
      rw [hstep]; exact h
    calc (runOps cfg env (stepState cfg env st op) ops).cache x
        = (stepState cfg env st op).cache x := ih (stepState cfg env st op) htr
      _ = st.cache x := hstep

/-! ## The claims -/

/-- C1, counterexample.  In the spec's concrete scenario
(basePath=`/proj/src`, genDir=`/proj/src/gen`, containing file
`/proj/src/gen/app/app.component.ngfactory`, imported file
`/proj/src/app/app.component`) the code does *not* return
`./app.component`: `rewriteGenDirPath` replaces the first occurrence of
basePath in the containing path — which already lies under genDir — by
genDir, so the resolution base becomes `/proj/src/gen/gen/app`. -/
theorem c1_counterexample :
    (resolveFileToImport cfg1 envAllExist st0
        "/proj/src/app/app.component" "/proj/src/gen/app/app.component.ngfactory").1
      ≠ "./app.component" := by decide

/-- C1, amended.  For basePath `/proj/src` and genDir `/proj/src/gen`,
reverse resolution of imported file `/proj/src/app/app.component` from
containing file `/proj/src/gen/app/app.component.ngfactory` returns
exactly `../../../app/app.component`: the containing path's leading
basePath is replaced by genDir (giving the resolution base
`/proj/src/gen/gen/app`) and the specifier is the dot-relative path from
there to the imported file. -/
theorem c1_amended :
    (resolveFileToImport cfg1 envAllExist st0
        "/proj/src/app/app.component" "/proj/src/gen/app/app.component.ngfactory").1
      = "../../../app/app.component" := by decide

/-- C2, counterexample.  For an imported file with two dependency-directory
markers, `/a/node_modules/x/node_modules/y` (ordinary, not generated),
reverse resolution returns the substring after the *first* marker,
`x/node_modules/y`, not the module id after the last marker (`y`). -/
theorem c2_counterexample :
    (resolveFileToImport cfg1 envAllExist st0
        "/a/node_modules/x/node_modules/y" "/proj/src/gen/m.ngfactory").1
        = "x/node_modules/y"
    ∧ (resolveFileToImport cfg1 envAllExist st0
        "/a/node_modules/x/node_modules/y" "/proj/src/gen/m.ngfactory").1
        ≠ "y" := by
  constructor
  · decide
  · decide

/-- C2, amended.  For every imported file path containing `/node_modules/`
whose extension-stripped form does not match the generated-artifact
pattern and whose substring after the *first* marker is non-empty, reverse
resolution returns exactly that substring after the first marker; the
returned string begins with a relative-path marker (`./` or `../`) only
if that substring itself begins with a dot. -/
theorem c2_amended (cfg : Config) (env : Env) (st : HostState)
    (imp cont : String) (i : Nat)
    (h1 : jsIndexOf (stripExt imp) NODE_MODULES = some i)
    (h2 : isGenerated (stripExt imp) = false)
    (h3 : (jsSubstringFrom (stripExt imp) (i + NODE_MODULES.length)).isEmpty = false) :
    (resolveFileToImport cfg env st imp cont).1
      = jsSubstringFrom (stripExt imp) (i + NODE_MODULES.length)
    ∧ (startsWithL (jsSubstringFrom (stripExt imp) (i + NODE_MODULES.length)) "." = false →
        startsWithL (resolveFileToImport cfg env st imp cont).1 "./" = false
        ∧ startsWithL (resolveFileToImport cfg env st imp cont).1 "../" = false) := by
  have hres : (resolveFileToImport cfg env st imp cont).1
      = jsSubstringFrom (stripExt imp) (i + NODE_MODULES.length) := by
    unfold resolveFileToImport
    simp only [h1, h2, Option.map_some', jsStrTruthy, h3, Bool.not_false, if_true,
      Bool.false_eq_true, if_false, Option.getD_some]
  refine ⟨hres, fun hdot => ⟨?_, ?_⟩⟩
  · rw [hres]
    by_contra hc
    rw [Bool.not_eq_false] at hc
    rw [startsWithL_trans _ "./" "." hc (by decide)] at hdot
    cases hdot
  · rw [hres]
    by_contra hc
    rw [Bool.not_eq_false] at hc
    rw [startsWithL_trans _ "../" "." hc (by decide)] at hdot
    cases hdot

/-- C2, witness: the spec's own dependency scenario.  Imported
`/proj/node_modules/rxjs/Observable` (first marker at index 5) resolves to
exactly `rxjs/Observable`, with no leading relative marker. -/
theorem c2_witness :
    (resolveFileToImport cfg1 envAllExist st0
        "/proj/node_modules/rxjs/Observable" "/proj/src/gen/main.ts").1
      = jsSubstringFrom (stripExt "/proj/node_modules/rxjs/Observable")
          (5 + NODE_MODULES.length)
    ∧ startsWithL (resolveFileToImport cfg1 envAllExist st0
        "/proj/node_modules/rxjs/Observable" "/proj/src/gen/main.ts").1 "./" = false
    ∧ startsWithL (resolveFileToImport cfg1 envAllExist st0
        "/proj/node_modules/rxjs/Observable" "/proj/src/gen/main.ts").1 "../" = false :=
  have h := c2_amended cfg1 envAllExist st0
    "/proj/node_modules/rxjs/Observable" "/proj/src/gen/main.ts" 5
    (by decide) (by decide) (by decide)
  ⟨h.1, (h.2 (by decide)).1, (h.2 (by decide)).2⟩

/-- C3, counterexample.  With basePath `/proj/src` and genDir `/proj/gen`,
the containing path `/x/proj/src/a.ts` does not start with basePath yet is
*not* left unchanged by `rewriteGenDirPath`: the first occurrence of
basePath anywhere in the path is rewritten, giving `/x/proj/gen/a.ts`. -/
theorem c3_counterexample :
    startsWithL "/x/proj/src/a.ts" cfg2.basePath = false
    ∧ rewriteGenDirPath cfg2 "/x/proj/src/a.ts" ≠ "/x/proj/src/a.ts"
    ∧ rewriteGenDirPath cfg2 "/x/proj/src/a.ts" = "/x/proj/gen/a.ts" := by
  refine ⟨by decide, by decide, by decide⟩

/-- C3, amended.  For every containing-file path: if the path contains the
dependency-directory marker, the relocation step transplants the suffix
from the first marker onward into genDir (that suffix indeed starts with
the marker); otherwise it replaces the *first occurrence* of basePath
anywhere in the path with genDir — in particular a leading basePath
prefix is replaced, and a path not containing basePath at all is left
unchanged.  (A non-leading occurrence of basePath *is* rewritten, which
is what the counterexample shows.) -/
theorem c3_amended (cfg : Config) (fp : String) :
    (∀ i, jsIndexOf fp NODE_MODULES = some i →
        rewriteGenDirPath cfg fp = pathJoin cfg.genDir (jsSubstringFrom fp i)
        ∧ startsWithL (jsSubstringFrom fp i) NODE_MODULES = true)
    ∧ (jsIndexOf fp NODE_MODULES = none →
        (startsWithL fp cfg.basePath = true →
            rewriteGenDirPath cfg fp
              = cfg.genDir ++ jsSubstringFrom fp cfg.basePath.length)
        ∧ (jsIndexOf fp cfg.basePath = none → rewriteGenDirPath cfg fp = fp)) := by
  constructor
  · intro i hi
    constructor
    · unfold rewriteGenDirPath
      rw [hi]
    · exact firstIdx_isPrefix NODE_MODULES.data fp.data i hi
  · intro hn
    constructor
    · intro hpre
      unfold rewriteGenDirPath
      rw [hn]
      exact replaceFirst_of_startsWith fp cfg.basePath cfg.genDir hpre
    · intro hbn
      unfold rewriteGenDirPath
      rw [hn]
      exact replaceFirst_not_found fp cfg.basePath cfg.genDir hbn

/-- C7, confirmed.  With an empty containing-file path, forward resolution
fails exactly when the specifier begins with the same/parent-directory
marker character `.` (the parent marker `..` begins with it too); a
non-relative specifier is instead resolved against the synthetic
containing file `basePath/index.ts` by the delegated module resolver. -/
theorem c7_confirmed (cfg : Config) (env : Env) (m : String) :
    resolveImportToFile cfg env m ""
      = if startsWithL m "." then Except.error ResolveError.relativeNeedsContainingFile
        else Except.ok (env.tsResolve (stripExt m)
              (slashify (pathJoin cfg.basePath "index.ts"))) := by
  unfold resolveImportToFile
  rfl

/-- C4, confirmed.  Reverse resolution of an imported file the raw compiler
host does not know records that exact path in the assumed-existing set;
from then on every `fileExists` check through the context answers true —
the underlying filesystem (`env.hostFileExists`, immutable in the model:
no real file is created) still answers false — and no operation of the
host's surface ever removes the path from the set. -/
theorem c4_confirmed (cfg : Config) (env : Env) (st : HostState) (imp cont : String)
    (h : env.hostFileExists imp = false) :
    ((resolveFileToImport cfg env st imp cont).2).assumed imp = true
    ∧ ctxFileExists env ((resolveFileToImport cfg env st imp cont).2) imp = true
    ∧ ∀ ops : List HostOp,
        ctxFileExists env
          (runOps cfg env ((resolveFileToImport cfg env st imp cont).2) ops) imp = true := by
  have hst : (resolveFileToImport cfg env st imp cont).2 = ctxAssume st imp := by
    rw [resolveFileToImport_state, if_neg (by simp [h])]
  refine ⟨?_, ?_, ?_⟩
  · rw [hst]
    exact ctxAssume_assumed_self st imp
  · unfold ctxFileExists
    rw [hst, ctxAssume_assumed_self]
    rfl
  · intro ops
    unfold ctxFileExists
    rw [hst, runOps_assumed_mono cfg env imp ops (ctxAssume st imp)
          (ctxAssume_assumed_self st imp)]
    rfl

/-- C4, witness: after reverse-resolving the not-yet-emitted
`/proj/src/gen/app.ngfactory` on an empty filesystem and then running
further host operations, the context still reports the path as existing. -/
theorem c4_witness :
    ctxFileExists envNoFiles
      (runOps cfg1 envNoFiles
        ((resolveFileToImport cfg1 envNoFiles st0
            "/proj/src/gen/app.ngfactory" "/proj/src/main.ts").2)
        [HostOp.opGetResolverMetadata "/other.ts",
         HostOp.opFileExists "/proj/src/gen/app.ngfactory",
         HostOp.opResolveFileToImport "/b.ts" "/c.ts"])
      "/proj/src/gen/app.ngfactory" = true :=
  (c4_confirmed cfg1 envNoFiles st0
      "/proj/src/gen/app.ngfactory" "/proj/src/main.ts" rfl).2.2 _

theorem readMetadata_error_shape (env : Env) (st : HostState) (p : String)
    (e : MetaError) (h : (readMetadata env st p).1 = Except.error e) :
    e = MetaError.jsonFailed p := by
  unfold readMetadata at h
  split at h
  · split at h
    · exact absurd h (by simp)
    · split at h
      · exact absurd h (by simp)
      · exact (Except.error.inj h).symm
  · split at h
    · exact absurd h (by simp)
    · exact (Except.error.inj h).symm

/-- C5, counterexample.  The ordinary source path `/app/main.ts` is absent
from the program and from disk (and not assumed), yet `getMetadataFor`
returns the absence value instead of raising the "source file not present
in program" error claimed: the existence guard at entry already returned
absence. -/
theorem c5_counterexample :
    (getMetadataFor envNoFiles st0 "/app/main.ts").1 = Except.ok none
    ∧ (getMetadataFor envNoFiles st0 "/app/main.ts").1
        ≠ Except.error (MetaError.notInProgram "/app/main.ts") := by
  refine ⟨rfl, fun h => ?_⟩
  rw [show (getMetadataFor envNoFiles st0 "/app/main.ts").1
        = Except.ok none from rfl] at h
  exact Except.noConfusion h

/-- C5, amended.  For every path for which the context's `fileExists`
(honoring the assumed-existing set) returns false, `getMetadataFor`
returns the absence value and raises no error; the fatal "source file not
present in program" error is unreachable — the entry guard already
established existence, and the same check is repeated before the error
branch — so a path absent from both program and disk also yields the
absence value rather than the error. -/
theorem c5_amended (env : Env) (st : HostState) (p : String) :
    (ctxFileExists env st p = false → (getMetadataFor env st p).1 = Except.ok none)
    ∧ ∀ q : String,
        (getMetadataFor env st p).1 ≠ Except.error (MetaError.notInProgram q) := by
  constructor
  · intro h
    unfold getMetadataFor
    rw [h]
    rfl
  · intro q hq
    unfold getMetadataFor at hq
    by_cases hex : ctxFileExists env st p = true
    · rw [hex, if_neg (by simp)] at hq
      by_cases hd : dtsTest p = true
      · rw [hd, if_pos rfl] at hq
        dsimp only at hq
        by_cases hmp : ctxFileExists env st (metadataJsonPath p) = true
        · rw [if_pos hmp] at hq
          rcases hr : readMetadata env st (metadataJsonPath p) with ⟨r, st'⟩
          rw [hr] at hq
          cases r with
          | error e =>
            dsimp only at hq
            have he := readMetadata_error_shape env st (metadataJsonPath p) e
              (by rw [hr])
            have hinj := Except.error.inj hq
            rw [he] at hinj
            exact MetaError.noConfusion hinj
          | ok m => exact absurd hq (by simp)
        · rw [if_neg hmp] at hq
          exact absurd hq (by simp)
      · rw [if_neg hd] at hq
        rcases hps : env.programSource p with _ | sf
        · rw [hps] at hq
          dsimp only at hq
          exact absurd hq (by simp)
        · rw [hps] at hq
          exact absurd hq (by simp)
    · rw [Bool.not_eq_true] at hex
      rw [hex] at hq
      simp at hq

theorem getResolverMetadata_cache_self (env : Env) (st : HostState) (p : String)
    (v : Option Json) (h1 : (getResolverMetadata env st p).1 = Except.ok v) :
    ((getResolverMetadata env st p).2).cache p = v := by
  unfold getResolverMetadata at h1 ⊢
  by_cases hc : jsTruthy (st.cache p) = true
  · rw [if_pos hc] at h1 ⊢
    exact Except.ok.inj h1
  · rw [if_neg hc] at h1 ⊢
    generalize getMetadataFor env st p = pr at h1 ⊢
    obtain ⟨r, st'⟩ := pr
    cases r with
    | error e =>
      dsimp only at h1
      exact absurd h1 (by simp)
    | ok w =>
      dsimp only at h1 ⊢
      have hw : w = v := Except.ok.inj h1
      subst hw
      simp

/-- C6, counterexample.  An absence result is *not* memoized: the first
lookup of `/app/widget.ts` yields the absence value and stores the falsy
`undefined`; after the path becomes assumed-existing (a reverse
resolution referencing it), a second lookup recomputes and returns a
*different* value, contradicting "every subsequent lookup for the same
path returns the cached value without re-reading or re-collecting". -/
theorem c6_counterexample :
    (getResolverMetadata envWidget st0 "/app/widget.ts").1 = Except.ok none
    ∧ (getResolverMetadata envWidget
          ((resolveFileToImport cfg1 envWidget
              ((getResolverMetadata envWidget st0 "/app/widget.ts").2)
              "/app/widget.ts" "/proj/src/gen/other.ts").2)
          "/app/widget.ts").1 = Except.ok (some (Json.obj []))
    ∧ (Except.ok (some (Json.obj [])) : Except MetaError (Option Json))
        ≠ Except.ok none := by
  refine ⟨rfl, rfl, fun h => ?_⟩
  exact Option.noConfusion (Except.ok.inj h)

/-- C6, amended.  Memoization holds for truthy results: once a lookup
produces a truthy metadata value, the value is stored in the path-keyed
cache, a subsequent lookup of the same path returns it from the cache
with the state unchanged (in particular, with no further read or
collector invocation — the `work` counter is part of the state), and no
subsequent host operation ever invalidates or evicts the entry.  A falsy
result (`undefined`) is stored but fails the `if (!metadata)` test, so it
is recomputed on every lookup — that is the corrected part of the
claim. -/
theorem c6_amended (cfg : Config) (env : Env) (st : HostState) (p : String)
    (v : Option Json)
    (h1 : (getResolverMetadata env st p).1 = Except.ok v)
    (h2 : jsTruthy v = true) :
    getResolverMetadata env ((getResolverMetadata env st p).2) p
        = (Except.ok v, (getResolverMetadata env st p).2)
    ∧ ((getResolverMetadata env st p).2).cache p = v
    ∧ ∀ ops : List HostOp,
        (runOps cfg env ((getResolverMetadata env st p).2) ops).cache p = v := by
  have hcache := getResolverMetadata_cache_self env st p v h1
  refine ⟨?_, hcache, ?_⟩
  · generalize hgen : (getResolverMetadata env st p).2 = st1 at hcache ⊢
    unfold getResolverMetadata
    rw [hcache, if_pos h2]
  · intro ops
    rw [runOps_cache_truthy cfg env p ops _ (by rw [hcache]; exact h2), hcache]

/-- C6, witness: looking up `/app/mod.ts` (in the program, with truthy
collected metadata) stores that truthy value in the cache. -/
theorem c6_witness :
    ((getResolverMetadata envTruthyMeta st0 "/app/mod.ts").2).cache "/app/mod.ts"
        = some (Json.obj []) :=
  (c6_amended cfg1 envTruthyMeta st0 "/app/mod.ts" (some (Json.obj [])) rfl rfl).2.1

/-- C8, confirmed.  For a declaration-file path (existing per the context):
if the sibling metadata file exists (with no cached entry for it) and
parses to the empty JSON array, `getMetadataFor` returns the absence
value; if the sibling is missing, it returns the same absence value. -/
theorem c8_confirmed (env : Env) (st : HostState) (p : String)
    (hdts : dtsTest p = true)
    (hex : ctxFileExists env st p = true) :
    (ctxFileExists env st (metadataJsonPath p) = true →
        st.cache (metadataJsonPath p) = none →
        env.parseJson (env.hostReadFile (metadataJsonPath p)) = some (Json.arr []) →
        (getMetadataFor env st p).1 = Except.ok none)
    ∧ (ctxFileExists env st (metadataJsonPath p) = false →
        (getMetadataFor env st p).1 = Except.ok none) := by
  constructor
  · intro hmp hcache hparse
    have hr : readMetadata env st (metadataJsonPath p)
        = (Except.ok (Json.arr []), bump st) := by
      unfold readMetadata
      rw [hcache]
      dsimp only
      rw [hparse]
    unfold getMetadataFor
    rw [hex, if_neg (by simp), hdts, if_pos rfl]
    dsimp only
    rw [if_pos hmp, hr]
    rfl
  · intro hmp
    unfold getMetadataFor
    rw [hex, if_neg (by simp), hdts, if_pos rfl]
    dsimp only
    rw [if_neg (by simp [hmp])]

/-- C8, witness: for `/lib/foo.d.ts`, a sidecar reading `[]` and a missing
sidecar both yield the absence value. -/
theorem c8_witness :
    (getMetadataFor envEmptySidecar st0 "/lib/foo.d.ts").1 = Except.ok none
    ∧ (getMetadataFor envNoSidecar st0 "/lib/foo.d.ts").1 = Except.ok none :=
  ⟨(c8_confirmed envEmptySidecar st0 "/lib/foo.d.ts" rfl rfl).1 rfl rfl rfl,
   (c8_confirmed envNoSidecar st0 "/lib/foo.d.ts" rfl rfl).2 rfl⟩

/-- C10, confirmed.  The eager existence check of resource loading consults
only the underlying compiler host: for a path in the assumed-existing set
but absent from the host, the context's `fileExists` answers true, yet
`loadResource` fails with the resource-not-found error instead of
returning content. -/
theorem c10_confirmed (env : Env) (st : HostState) (p : String)
    (ha : st.assumed p = true) (hh : env.hostFileExists p = false) :
    ctxFileExists env st p = true
    ∧ loadResource env p = Except.error (ResourceError.notFound p) := by
  constructor
  · unfold ctxFileExists
    rw [ha]
    rfl
  · unfold loadResource readResource
    rw [hh]
    rfl

/-- C10, witness: `/app/tpl.html` is assumed-existing on an empty disk;
`fileExists` answers true and `loadResource` fails with
resource-not-found. -/
theorem c10_witness :
    ctxFileExists envNoFiles stTpl "/app/tpl.html" = true
    ∧ loadResource envNoFiles "/app/tpl.html"
        = Except.error (ResourceError.notFound "/app/tpl.html") :=
  c10_confirmed envNoFiles stTpl "/app/tpl.html" rfl rfl

/-- C9, confirmed.  The specifier returned by reverse resolution depends
only on the two paths and the construction-time configuration: two runs
under arbitrarily different filesystems (`env1`/`env2`) and arbitrarily
different states return the identical string, and the filesystem answer
influences only whether the assume-file-exists hint is recorded. -/
theorem c9_confirmed (cfg : Config) (env1 env2 : Env) (st1 st2 : HostState)
    (imp cont : String) :
    (resolveFileToImport cfg env1 st1 imp cont).1
      = (resolveFileToImport cfg env2 st2 imp cont).1
    ∧ (resolveFileToImport cfg env1 st1 imp cont).2
      = (if env1.hostFileExists imp then st1 else ctxAssume st1 imp) := by
  exact ⟨rfl, resolveFileToImport_state cfg env1 st1 imp cont⟩

end NgHost
